import Mathlib

/-!
Verification of `pylinsql/code_generator.py`: a shallow embedding of the
catalog-introspection and dependency-ordering engine, together with theorems
checking the specification's claims against it.

The source module introspects a PostgreSQL catalog.  Database queries are
external collaborators; we embed their *results* (row lists) as explicit
inputs, and the SQL text of the recursive dependency query as an explicit
iterative process with the same semantics (see `depRows` below).
-/

set_option autoImplicit false

namespace PyLinSql

/-- The six primitive target kinds of `_db_type_to_py_type`: `str`, `bool`,
`int`, `float`, `datetime.date`, `datetime.time`, `datetime.datetime`. -/
inductive PrimKind where
  | str
  | bool
  | int
  | float
  | date
  | time
  | datetime
  deriving DecidableEq, Repr

/-- A resolved Python type: either a bare primitive or `Optional[...]` over a
primitive (the only shapes `_db_type_to_py_type` produces). -/
inductive PyType where
  | prim (k : PrimKind)
  | optional (k : PrimKind)
  deriving DecidableEq, Repr

/-- Error kinds of the code generator.  The Python source raises `RuntimeError`
(or `KeyError` for a missing column) with a message; we model the distinct
failure points as distinct constructors. -/
inductive CodeGenError where
  | unrecognizedType (dbType : String)
  | crossSchemaReference (fkSchema pkSchema : String)
  | duplicateForeignKey (column : String)
  | missingColumn (column : String)
  | emptySchema (schema : String)
  deriving DecidableEq, Repr

/-- The fixed lookup from a PostgreSQL type name to its primitive kind,
mirroring the `if`/`elif` chain of `_db_type_to_py_type` (lines 23-42). -/
def dbPrimKind (db_type : String) : Option PrimKind :=
  if db_type ∈ ["character varying", "text"] then some .str
  else if db_type ∈ ["boolean"] then some .bool
  else if db_type ∈ ["smallint", "integer", "bigint"] then some .int
  else if db_type ∈ ["real", "double precision"] then some .float
  else if db_type ∈ ["date"] then some .date
  else if db_type ∈ ["time", "time with time zone", "time without time zone"] then
    some .time
  else if db_type ∈ ["timestamp", "timestamp with time zone",
      "timestamp without time zone"] then
    some .datetime
  else none

/-- Maps a PostgreSQL type to a Python type: returns `(outer_type, value_type)`
on success, the unrecognized-type error otherwise (source lines 18-51). -/
def _db_type_to_py_type (db_type : String) (is_nullable : Bool)
    (has_default : Bool) : Except CodeGenError (PyType × PyType) :=
  match dbPrimKind db_type with
  | none => .error (.unrecognizedType db_type)
  | some py_type =>
    if is_nullable && !has_default then
      .ok (.optional py_type, .prim py_type)
    else
      .ok (.prim py_type, .prim py_type)

/-- Modelled from the spec: `Reference` from module `pylinsql.schema`, which is
not under `src/`; spec section 3 ForeignKeyReference carries a reference
identifying the target primary-key `{table, column}`. -/
structure Reference where
  table : String
  column : String
  deriving DecidableEq, Repr

/-- Modelled from the spec: `ForeignKey` from module `pylinsql.schema`, which
is not under `src/`; spec section 3: a constraint name plus a reference. -/
structure ForeignKey where
  name : String
  references : Reference
  deriving DecidableEq, Repr

/-- Modelled from the spec: the column set of a `PrimaryKey` from module
`pylinsql.schema` (not under `src/`) is either a single column name or an
ordered list of column names (composite key), per spec section 3. -/
inductive PKColumns where
  | single (column : String)
  | composite (columns : List String)
  deriving DecidableEq, Repr

/-- Modelled from the spec: `PrimaryKey` from module `pylinsql.schema`, which
is not under `src/`; a constraint name and its column(s). -/
structure PrimaryKey where
  name : String
  columns : PKColumns
  deriving DecidableEq, Repr

/-- Metadata associated with a database table column (source lines 54-62).
The default literal is carried as the raw text (see `cast_if_not_none`). -/
structure ColumnSchema where
  name : String
  data_type : PyType
  default : Option String
  description : Option String
  references : Option ForeignKey := none
  deriving DecidableEq, Repr

/-- Metadata associated with a database table (source lines 65-72).  The
Python `Dict` preserves insertion order; we embed it as an association list in
insertion order. -/
structure TableSchema where
  name : String
  description : Option String
  columns : List (String × ColumnSchema)
  primary_key : Option PrimaryKey := none
  deriving DecidableEq, Repr

/-- Metadata associated with a database catalog (source lines 75-83). -/
structure CatalogSchema where
  name : String
  tables : List (String × TableSchema)
  deriving DecidableEq, Repr

/-- The `__bool__` conversion of `CatalogSchema` (source lines 82-83):
truthy exactly when the table map is non-empty. -/
def CatalogSchema.toBool (c : CatalogSchema) : Bool :=
  !c.tables.isEmpty

/-- Row shape of the primary-key constraint query (source lines 86-91). -/
structure _UniqueConstraint where
  key_name : String
  key_schema : String
  key_table : String
  key_column : String
  deriving DecidableEq, Repr

/-- Row shape of the foreign-key constraint query (source lines 94-102). -/
structure _ReferenceConstraint where
  foreign_key_name : String
  foreign_key_schema : String
  foreign_key_table : String
  foreign_key_column : String
  primary_key_schema : String
  primary_key_table : String
  primary_key_column : String
  deriving DecidableEq, Repr

/-- Insertion into a Python `dict` modelled on an association list: an
existing key is overwritten in place, a new key is appended. -/
def dictInsert {α : Type} (m : List (String × α)) (k : String) (v : α) :
    List (String × α) :=
  if m.any (fun p => p.1 == k) then
    m.map (fun p => if p.1 == k then (k, v) else p)
  else
    m ++ [(k, v)]

/-- Lookup in a Python `dict` modelled on an association list. -/
def dictGet {α : Type} (m : List (String × α)) (k : String) : Option α :=
  match m with
  | [] => none
  | p :: rest => if p.1 == k then some p.2 else dictGet rest k

/-- The foreign-key graph the recursive dependency query of
`get_catalog_schema` (source lines 117-197) operates on: the tables of the
target schema and the referential-constraint edges.  An edge `(a, b)` states
that table `a` has a foreign key referencing table `b`.  Multi-column
constraints yield several identical edges, which is harmless. -/
structure DepGraph where
  tables : List String
  edges : List (String × String)
  deriving DecidableEq, Repr

/-- A table has no foreign keys at all: no referential-constraint row lists it
as the referencing table.  This is the base case of the recursive query
(`pkey.table_name IS NULL` after the `RIGHT JOIN`, source lines 127-155). -/
def isLeaf (g : DepGraph) (t : String) : Bool :=
  g.edges.all (fun e => !(e.1 == t))

/-- Base rows of the recursive query: depth 1 for every table of the schema
that has no foreign keys (source lines 127-155).  A row is `(depth, child)`;
the parent columns are not used by the final `SELECT`. -/
def depBase (g : DepGraph) : List (Nat × String) :=
  g.tables.filterMap (fun t => if isLeaf g t then some (1, t) else none)

/-- One step of the recursive query (source lines 156-186): for every row
`(d, x)` of the previous iteration and every referential constraint whose
referenced table is `x` and whose referencing table is in the schema, emit
`(d + 1, referencing table)`.  Note that a row is emitted as soon as ANY of
the referencing table's foreign keys points at a previously returned table. -/
def depStep (g : DepGraph) (work : List (Nat × String)) : List (Nat × String) :=
  work.flatMap (fun r =>
    g.edges.filterMap (fun e =>
      if e.2 == r.2 && g.tables.contains e.1 then some (r.1 + 1, e.1) else none))

/-- Accumulates the rows of the recursive query: PostgreSQL iterates the
recursive term on the rows produced by the previous iteration until an
iteration produces no rows.  `fuel` bounds the number of iterations; see
`depRows` for why the chosen bound is faithful. -/
def depRowsAux (g : DepGraph) :
    Nat → List (Nat × String) → List (Nat × String) → List (Nat × String)
  | 0, _, acc => acc
  | fuel + 1, work, acc =>
    if work.isEmpty then acc
    else depRowsAux g fuel (depStep g work) (acc ++ depStep g work)

/-- All rows of the recursive CTE `dependencies`.  Whenever the source query
terminates, the iteration empties within `tables.length` steps: a row of
depth `d` witnesses a foreign-key path of `d - 1` edges down to a table with
no foreign keys, and in the absence of a reachable cycle such a path visits
distinct schema tables, so depths never exceed `tables.length`.  (When a
cycle is reachable from the depth-1 tables the source query does not
terminate at all; no claim concerns that case.) -/
def depRows (g : DepGraph) : List (Nat × String) :=
  depRowsAux g g.tables.length (depBase g) (depBase g)

/-- `MIN(depth)` for one table over the rows of the recursive query
(source lines 192-196). -/
def minDepthOf (rows : List (Nat × String)) (t : String) : Option Nat :=
  (rows.filterMap (fun r => if r.2 == t then some r.1 else none)).min?

/-- Distinct values in first-occurrence order, modelling `GROUP BY child_name`
(the grouping order is irrelevant: the result is sorted afterwards). -/
def distinctNames (seen : List String) : List String → List String
  | [] => []
  | x :: xs =>
    if seen.contains x then distinctNames seen xs
    else x :: distinctNames (x :: seen) xs

/-- Codepoint comparison of characters, used for the `ORDER BY` name
tie-break (ASCII table names; collation subtleties are out of scope). -/
def charLtB (a b : Char) : Bool := decide (a.toNat < b.toNat)

/-- Codepoint equality of characters. -/
def charEqB (a b : Char) : Bool := decide (a.toNat = b.toNat)

/-- Lexicographic strict order on character lists. -/
def strLtAux : List Char → List Char → Bool
  | [], [] => false
  | [], _ :: _ => true
  | _ :: _, [] => false
  | a :: as, b :: bs => charLtB a b || (charEqB a b && strLtAux as bs)

/-- Lexicographic order on strings (reflexive form). -/
def strLeB (a b : String) : Bool := strLtAux a.data b.data || a == b

/-- Stable insertion of an element into a list: placed before the first
element it compares less-or-equal to. -/
def insertSorted {α : Type} (le : α → α → Bool) (x : α) : List α → List α
  | [] => [x]
  | y :: ys => if le x y then x :: y :: ys else y :: insertSorted le x ys

/-- Stable insertion sort; models both the SQL `ORDER BY` (whose keys are
distinct here) and Python's stable `list.sort`. -/
def sortBy {α : Type} (le : α → α → Bool) : List α → List α
  | [] => []
  | x :: xs => insertSorted le x (sortBy le xs)

/-- The `ORDER BY MIN(depth), child_name` comparison between two tables
(source lines 194-196). -/
def depthNameLe (rows : List (Nat × String)) (a b : String) : Bool :=
  let da := (minDepthOf rows a).getD 0
  let db := (minDepthOf rows b).getD 0
  decide (da < db) || (decide (da = db) && strLeB a b)

/-- The ordered table-name sequence produced by the dependency query of
`get_catalog_schema` (source lines 117-198): distinct children of the
recursive rows, sorted by minimum depth and then by name. -/
def orderTables (g : DepGraph) : List String :=
  let rows := depRows g
  sortBy (depthNameLe rows) (distinctNames [] (rows.map Prod.snd))

/-- Bounded reachability of a table with no foreign keys: `true` iff within
`fuel` steps there is a foreign-key path from `t` to a leaf table.  Used to
state which tables the recursive query ever returns. -/
def reachesLeafWithin (g : DepGraph) : Nat → String → Bool
  | 0, _ => false
  | fuel + 1, t =>
    isLeaf g t || g.edges.any (fun e => e.1 == t && reachesLeafWithin g fuel e.2)

/-- `pathOk g a l` holds when `l` lists the successive targets of a
foreign-key walk starting at `a`. -/
def pathOk (g : DepGraph) : String → List String → Bool
  | _, [] => true
  | a, b :: rest => g.edges.contains (a, b) && pathOk g b rest

/-- Row shape of the column-metadata query of `_get_table_schema`
(source lines 220-256).  `character_maximum_length` and `is_identity` are
selected by the query but never read by the Python code. -/
structure DbColumnRow where
  column_name : String
  is_nullable : Bool
  data_type : String
  column_default : Option String
  character_maximum_length : Option Nat
  is_identity : Bool
  description : Option String
  deriving DecidableEq, Repr

/-- Modelled from the spec: `cast_if_not_none` from module `pylinsql.base`,
which is not under `src/`.  Spec section 4.3 step 3: each non-null default
literal is parsed into the resolved primitive type, and an absent default
stays absent.  We carry the literal text itself; the parse into the target
primitive is out of scope, so presence/absence is what the model tracks. -/
def cast_if_not_none (value_type : PyType) (value : Option String) :
    Option String :=
  match value_type with
  | _ => value

/-- The results of the catalog queries that `_CatalogSchemaBuilder` issues,
embedded as explicit data: the dependency graph seen by the recursive query,
and per table the description row, the column rows (in ordinal order), the
primary-key constraint rows and the referential-constraint rows. -/
structure DbSnapshot where
  graph : DepGraph
  tableDescription : String → Option String
  tableColumns : String → List DbColumnRow
  tableUniqueConstraints : String → List _UniqueConstraint
  tableRefConstraints : String → List _ReferenceConstraint

/-- The column loop of `_get_table_schema` (source lines 258-272): maps each
row's type, builds a `ColumnSchema` and inserts it into the column dict,
propagating the first type-mapping failure. -/
def buildColumns (acc : List (String × ColumnSchema)) :
    List DbColumnRow → Except CodeGenError (List (String × ColumnSchema))
  | [] => .ok acc
  | row :: rest =>
    match _db_type_to_py_type row.data_type row.is_nullable
        row.column_default.isSome with
    | .error e => .error e
    | .ok (outer_type, value_type) =>
      buildColumns
        (dictInsert acc row.column_name
          { name := row.column_name
            data_type := outer_type
            default := cast_if_not_none value_type row.column_default
            description := row.description })
        rest

/-- Functional image of the in-place mutation `column.references = ...`:
replaces the `references` field of the column stored under `k`. -/
def setColumnRef (m : List (String × ColumnSchema)) (k : String)
    (fk : ForeignKey) : List (String × ColumnSchema) :=
  m.map (fun p =>
    if p.1 == k then (p.1, { p.2 with references := some fk }) else p)

/-- The body of the constraint loop of `_set_foreign_keys` (source lines
347-365): reject cross-schema references, look the column up (a missing
column is Python's `KeyError`), reject a second foreign key on the same
column, otherwise attach the reference. -/
def applyRefConstraint (ts : TableSchema) (c : _ReferenceConstraint) :
    Except CodeGenError TableSchema :=
  if c.foreign_key_schema ≠ c.primary_key_schema then
    .error (.crossSchemaReference c.foreign_key_schema c.primary_key_schema)
  else
    match dictGet ts.columns c.foreign_key_column with
    | none => .error (.missingColumn c.foreign_key_column)
    | some column =>
      if column.references.isSome then
        .error (.duplicateForeignKey column.name)
      else
        .ok { ts with
          columns := setColumnRef ts.columns c.foreign_key_column
            { name := c.foreign_key_name
              references :=
                { table := c.primary_key_table
                  column := c.primary_key_column } } }

/-- Binds table relations associating foreign keys with primary keys
(source lines 316-365), iterating `applyRefConstraint` over the constraint
rows and stopping at the first error. -/
def _set_foreign_keys (ts : TableSchema) :
    List _ReferenceConstraint → Except CodeGenError TableSchema
  | [] => .ok ts
  | c :: rest =>
    match applyRefConstraint ts c with
    | .error e => .error e
    | .ok ts' => _set_foreign_keys ts' rest

/-- The primary-key assignment of `_set_unique_keys` (source lines 301-314):
more than one constraint row gives a composite key over all rows' columns in
row order named after the first row, exactly one row gives a single-column
key, zero rows leave the primary key absent. -/
def _set_unique_keys (ts : TableSchema) (constraints : List _UniqueConstraint) :
    TableSchema :=
  match constraints with
  | [] => { ts with primary_key := none }
  | [c] =>
    let pk := PrimaryKey.mk c.key_name (.single c.key_column)
    { ts with primary_key := some pk }
  | c :: rest =>
    let pk := PrimaryKey.mk c.key_name
      (.composite ((c :: rest).map _UniqueConstraint.key_column))
    { ts with primary_key := some pk }

/-- Retrieves metadata for one table (source lines 203-279): description,
columns (with type mapping), then foreign keys, then the primary key. -/
def _get_table_schema (snap : DbSnapshot) (db_table : String) :
    Except CodeGenError TableSchema :=
  match buildColumns [] (snap.tableColumns db_table) with
  | .error e => .error e
  | .ok column_schemas =>
    match _set_foreign_keys
        { name := db_table
          description := snap.tableDescription db_table
          columns := column_schemas }
        (snap.tableRefConstraints db_table) with
    | .error e => .error e
    | .ok ts => .ok (_set_unique_keys ts (snap.tableUniqueConstraints db_table))

/-- The per-table loop of `get_catalog_schema` (source line 199). -/
def buildTableSchemas (snap : DbSnapshot) :
    List String → Except CodeGenError (List TableSchema)
  | [] => .ok []
  | t :: ts =>
    match _get_table_schema snap t with
    | .error e => .error e
    | .ok x =>
      match buildTableSchemas snap ts with
      | .error e => .error e
      | .ok xs => .ok (x :: xs)

/-- Retrieves metadata for the current catalog (source lines 113-201,
368-370): runs the dependency query, loads each table in the returned order
and assembles the name-keyed catalog map in that order. -/
def get_catalog_schema (snap : DbSnapshot) (db_schema : String) :
    Except CodeGenError CatalogSchema :=
  match buildTableSchemas snap (orderTables snap.graph) with
  | .error e => .error e
  | .ok table_schemas =>
    .ok { name := db_schema
          tables := table_schemas.foldl
            (fun m t => dictInsert m t.name t) [] }

/-- The catalog-level flow of `main` (source lines 473-483) up to the point
where code is emitted: build the catalog, then fail when it is falsy (zero
tables).  Code emission and file output are out of scope. -/
def mainModel (snap : DbSnapshot) (db_schema : String) :
    Except CodeGenError CatalogSchema :=
  match get_catalog_schema snap db_schema with
  | .error e => .error e
  | .ok catalog =>
    if !catalog.toBool then .error (.emptySchema db_schema) else .ok catalog

/-- The Python keyword list consulted by `keyword.iskeyword` (a fixed
language fact, listed here because the module is outside the repository). -/
def pythonKeywords : List String :=
  ["False", "None", "True", "and", "as", "assert", "async", "await",
   "break", "class", "continue", "def", "del", "elif", "else", "except",
   "finally", "for", "from", "global", "if", "import", "in", "is",
   "lambda", "nonlocal", "not", "or", "pass", "raise", "return", "try",
   "while", "with", "yield"]

/-- `keyword.iskeyword` over the fixed keyword list. -/
def isPyKeyword (s : String) : Bool :=
  pythonKeywords.contains s

/-- The default slot of a generated dataclass field: `none` is Python's
`MISSING` sentinel, `some v` a present default (where `v = none` is the
Python literal `None`). -/
def FieldDefault : Type := Option (Option String)

/-- The field triple produced by `column_to_field` (source lines 373-397):
adjusted name, column type, and the field's default and metadata. -/
structure PyFieldSpec where
  field_name : String
  field_type : PyType
  default : Option (Option String)
  meta_description : Option String
  meta_foreign_key : Option ForeignKey
  deriving DecidableEq, Repr

/-- `is_optional_type` from module `pylinsql.base` specialised to the types
the generator produces: exactly the `Optional[...]` shape. -/
def is_optional_type : PyType → Bool
  | .optional _ => true
  | .prim _ => false

/-- Converts a column schema into a dataclass field triple (source lines
373-397): keyword names get a trailing underscore, an explicit column
default becomes the field default, otherwise an optional-typed field
defaults to `None`, otherwise the default is `MISSING`. -/
def column_to_field (column : ColumnSchema) : PyFieldSpec :=
  { field_name :=
      if isPyKeyword column.name then column.name ++ "_" else column.name
    field_type := column.data_type
    default :=
      match column.default with
      | some v => some (some v)
      | none => if is_optional_type column.data_type then some none else none
    meta_description := column.description
    meta_foreign_key := column.references }

/-- `f[2].default is not MISSING`: the sort key of `table_to_dataclass`
(source line 410). -/
def fieldHasDefault (f : PyFieldSpec) : Bool :=
  f.default.isSome

/-- The result of `dataclasses.make_dataclass` as far as the generator
observes it: name, docstring, ordered fields and the primary-key class
attribute. -/
structure DataClassSpec where
  class_name : String
  doc : Option String
  fields : List PyFieldSpec
  primary_key : Option PrimaryKey
  deriving DecidableEq, Repr

/-- Generates a dataclass corresponding to a table schema (source lines
400-416): fields from the columns in stored order, then a stable sort that
moves fields with a default after fields without one (Python's `list.sort`
is stable; `sortBy` is the stable insertion sort above). -/
def table_to_dataclass (table : TableSchema) : DataClassSpec :=
  { class_name :=
      if isPyKeyword table.name then table.name ++ "_" else table.name
    doc := table.description
    fields :=
      sortBy (fun f g => !fieldHasDefault f || fieldHasDefault g)
        ((table.columns.map Prod.snd).map column_to_field)
    primary_key := table.primary_key }

/-! Concrete schemas used to evaluate the orderer and the builder. -/

/-- Four tables with foreign keys `c → a`, `b → c`, `d → b`, `d → a`:
table `d` references `b`, but `d` also references the dependency-free table
`a` and is therefore first encountered at depth 2, before `b` (depth 3). -/
def gOrd : DepGraph :=
  { tables := ["a", "b", "c", "d"]
    edges := [("c", "a"), ("b", "c"), ("d", "b"), ("d", "a")] }

/-- Three tables with `c → b → a` and also `c → a` directly. -/
def gDiamond : DepGraph :=
  { tables := ["a", "b", "c"]
    edges := [("b", "a"), ("c", "a"), ("c", "b")] }

/-- Table `a` without foreign keys next to the pure two-cycle `b ↔ c`. -/
def gCycle : DepGraph :=
  { tables := ["a", "b", "c"]
    edges := [("b", "c"), ("c", "b")] }

/-- A snapshot of a schema containing no tables at all. -/
def emptySnap : DbSnapshot :=
  { graph := { tables := [], edges := [] }
    tableDescription := fun _ => none
    tableColumns := fun _ => []
    tableUniqueConstraints := fun _ => []
    tableRefConstraints := fun _ => [] }

/-- A one-table snapshot whose second column has the unrecognized native
type `uuid`. -/
def snapUuid : DbSnapshot :=
  { graph := { tables := ["t"], edges := [] }
    tableDescription := fun _ => none
    tableColumns := fun _ =>
      [{ column_name := "id", is_nullable := false, data_type := "integer",
         column_default := none, character_maximum_length := none,
         is_identity := true, description := none },
       { column_name := "payload", is_nullable := false, data_type := "uuid",
         column_default := none, character_maximum_length := none,
         is_identity := false, description := none }]
    tableUniqueConstraints := fun _ => []
    tableRefConstraints := fun _ => [] }

/-- A table schema with two plain integer columns `a` and `b`, as the column
loop produces it (no references attached yet). -/
def tsTwoCols : TableSchema :=
  { name := "t"
    description := none
    columns :=
      [("a", { name := "a", data_type := .prim .int, default := none,
               description := none }),
       ("b", { name := "b", data_type := .prim .int, default := none,
               description := none })] }

/-- A referential-constraint row binding column `col` of table `t` to
`u.id` inside schema `public`. -/
def rcPublic (col : String) : _ReferenceConstraint :=
  { foreign_key_name := "fk1", foreign_key_schema := "public",
    foreign_key_table := "t", foreign_key_column := col,
    primary_key_schema := "public", primary_key_table := "u",
    primary_key_column := "id" }

/-- A referential-constraint row whose referenced column lives in a
different schema. -/
def rcCross : _ReferenceConstraint :=
  { foreign_key_name := "fk2", foreign_key_schema := "public",
    foreign_key_table := "t", foreign_key_column := "b",
    primary_key_schema := "other", primary_key_table := "u",
    primary_key_column := "id" }

end PyLinSql

namespace PyLinSql

/-! Theorems checking the claims. -/

/-- C1: the claim states that for every foreign-key edge (A references B)
with both tables in the output of the dependency query, B's position
precedes A's.  The code violates this: in `gOrd`, table `d` references `b`,
yet the query places `d` (first encountered at depth 2 through its other
foreign key `d → a`) before `b` (depth 3).  This contradicts the comments of
the source query itself ("query table names in dependency order", "tables
that only depend on tables returned by the previous recursion steps"): the
recursive step fires as soon as ANY foreign-key target was returned, not
when all of them were. -/
theorem C1_ordering_property_violated :
    ("d", "b") ∈ gOrd.edges ∧
    orderTables gOrd = ["a", "c", "d", "b"] ∧
    "d" ∈ orderTables gOrd ∧ "b" ∈ orderTables gOrd ∧
    ¬ (orderTables gOrd).indexOf "b" < (orderTables gOrd).indexOf "d" ∧
    minDepthOf (depRows gOrd) "d" = some 2 ∧
    minDepthOf (depRows gOrd) "b" = some 3 := by
  refine ⟨by decide, by decide, by decide, by decide, by decide, by decide,
    by decide⟩

/-- C2 counterexample: in the diamond schema `c → b → a`, `c → a`, the claim
asserts that `c` is assigned depth 3; the recursive query's final
`MIN(depth)` in fact assigns `c` the minimum encounter depth 2 (through the
direct edge `c → a`). -/
theorem C2_counterexample :
    minDepthOf (depRows gDiamond) "c" = some 2 ∧
    minDepthOf (depRows gDiamond) "c" ≠ some 3 := by
  refine ⟨by decide, by decide⟩

/-- C2 (amended): in the diamond schema the orderer outputs `[a, b, c]`,
each table exactly once, and `c` is assigned depth 2 — the minimum depth over
its encounters (2 via the direct `c → a` edge, 3 via `b`) — not depth 3. -/
theorem C2_diamond_order :
    orderTables gDiamond = ["a", "b", "c"] ∧
    (orderTables gDiamond).Nodup ∧
    minDepthOf (depRows gDiamond) "c" = some 2 ∧
    minDepthOf (depRows gDiamond) "b" = some 2 ∧
    minDepthOf (depRows gDiamond) "a" = some 1 := by
  refine ⟨by decide, by decide, by decide, by decide, by decide⟩

/-- C3: for every recognized native type, the mapper returns the
`Optional`-wrapped primitive exactly when the column is nullable and has no
default, and the bare primitive in every other combination of the two
flags. -/
theorem C3_nullable_iff_no_default (db_type : String) (k : PrimKind)
    (h : dbPrimKind db_type = some k) (is_nullable has_default : Bool) :
    _db_type_to_py_type db_type is_nullable has_default =
      .ok (if is_nullable = true ∧ has_default = false then
             (PyType.optional k, PyType.prim k)
           else
             (PyType.prim k, PyType.prim k)) := by
  unfold _db_type_to_py_type
  rw [h]
  cases is_nullable <;> cases has_default <;> simp

/-- Witness for C3 at the recognized type `text`: nullable without default
maps to `Optional[str]`, nullable with default maps to bare `str`. -/
theorem C3_witness :
    dbPrimKind "text" = some .str ∧
    _db_type_to_py_type "text" true false = .ok (.optional .str, .prim .str) ∧
    _db_type_to_py_type "text" true true = .ok (.prim .str, .prim .str) := by
  refine ⟨by decide, ?_, ?_⟩
  · have h := C3_nullable_iff_no_default "text" .str (by decide) true false
    simpa using h
  · have h := C3_nullable_iff_no_default "text" .str (by decide) true true
    simpa using h

/-- C4 counterexample: for a schema with zero tables the catalog-building
operation `get_catalog_schema` does NOT fail; it returns a valid empty
`CatalogSchema`. -/
theorem C4_counterexample :
    get_catalog_schema emptySnap "public" =
      .ok { name := "public", tables := [] } ∧
    ∀ e, get_catalog_schema emptySnap "public" ≠ .error e := by
  refine ⟨rfl, ?_⟩
  intro e h
  simp [get_catalog_schema, orderTables, depRows, depRowsAux, depBase,
    emptySnap, buildTableSchemas] at h

/-- C4 (amended): when the dependency query returns no tables,
`get_catalog_schema` succeeds with an empty catalog, and the empty-schema
failure is raised afterwards by `main`, which checks the built catalog's
truthiness and aborts the run for an empty one. -/
theorem C4_empty_schema_error_in_main (snap : DbSnapshot) (db_schema : String)
    (h : orderTables snap.graph = []) :
    get_catalog_schema snap db_schema =
      .ok { name := db_schema, tables := [] } ∧
    mainModel snap db_schema = .error (.emptySchema db_schema) := by
  have hcat : get_catalog_schema snap db_schema =
      .ok { name := db_schema, tables := [] } := by
    unfold get_catalog_schema
    rw [h]
    rfl
  refine ⟨hcat, ?_⟩
  unfold mainModel
  rw [hcat]
  rfl

/-- Witness for C4 (amended) at the concrete empty snapshot. -/
theorem C4_witness :
    orderTables emptySnap.graph = [] ∧
    mainModel emptySnap "public" = .error (.emptySchema "public") :=
  ⟨rfl, (C4_empty_schema_error_in_main emptySnap "public" rfl).2⟩

theorem mem_insertSorted {α : Type} (le : α → α → Bool) (x y : α)
    (l : List α) : y ∈ insertSorted le x l → y = x ∨ y ∈ l := by
  induction l with
  | nil =>
    intro h
    simp only [insertSorted, List.mem_singleton] at h
    exact Or.inl h
  | cons z zs ih =>
    intro h
    cases hle : le x z with
    | true =>
      simp only [insertSorted, hle, if_true] at h
      rcases List.mem_cons.mp h with h' | h'
      · exact Or.inl h'
      · exact Or.inr h'
    | false =>
      simp only [insertSorted, hle, Bool.false_eq_true, if_false] at h
      rcases List.mem_cons.mp h with h' | h'
      · exact Or.inr (h' ▸ List.mem_cons_self z zs)
      · rcases ih h' with h2 | h2
        · exact Or.inl h2
        · exact Or.inr (List.mem_cons_of_mem _ h2)

theorem mem_sortBy {α : Type} (le : α → α → Bool) (y : α) (l : List α) :
    y ∈ sortBy le l → y ∈ l := by
  induction l with
  | nil =>
    intro h
    simp [sortBy] at h
  | cons x xs ih =>
    intro h
    rcases mem_insertSorted le x y (sortBy le xs) h with h' | h'
    · exact h' ▸ List.mem_cons_self x xs
    · exact List.mem_cons_of_mem _ (ih h')

theorem mem_distinctNames (l : List String) :
    ∀ seen y, y ∈ distinctNames seen l → y ∈ l := by
  induction l with
  | nil =>
    intro seen y h
    simp [distinctNames] at h
  | cons x xs ih =>
    intro seen y h
    cases hc : seen.contains x with
    | true =>
      simp only [distinctNames, hc, if_true] at h
      exact List.mem_cons_of_mem _ (ih seen y h)
    | false =>
      simp only [distinctNames, hc, Bool.false_eq_true, if_false] at h
      rcases List.mem_cons.mp h with h' | h'
      · exact h' ▸ List.mem_cons_self x xs
      · exact List.mem_cons_of_mem _ (ih (x :: seen) y h')

theorem reachesLeafWithin_mono (g : DepGraph) (d : Nat) :
    ∀ d' t, d ≤ d' → reachesLeafWithin g d t = true →
      reachesLeafWithin g d' t = true := by
  induction d with
  | zero =>
    intro d' t _ h
    cases h
  | succ n ih =>
    intro d' t hle h
    cases d' with
    | zero => exact absurd hle (by omega)
    | succ m =>
      simp only [reachesLeafWithin] at h ⊢
      rw [Bool.or_eq_true] at h ⊢
      rcases h with hl | ha
      · exact Or.inl hl
      · refine Or.inr ?_
        rcases List.any_eq_true.mp ha with ⟨e, he, hpe⟩
        rw [Bool.and_eq_true] at hpe
        rcases hpe with ⟨h1, h2⟩
        refine List.any_eq_true.mpr ⟨e, he, ?_⟩
        rw [Bool.and_eq_true]
        exact ⟨h1, ih m e.2 (by omega) h2⟩

theorem reachesLeafWithin_step (g : DepGraph) (d : Nat) (t t' : String)
    (h : reachesLeafWithin g d t = true) (he : (t', t) ∈ g.edges) :
    reachesLeafWithin g (d + 1) t' = true := by
  simp only [reachesLeafWithin]
  rw [Bool.or_eq_true]
  refine Or.inr (List.any_eq_true.mpr ⟨(t', t), he, ?_⟩)
  simp [h]

theorem reachesLeafWithin_leaf (g : DepGraph) (d : Nat) (t : String)
    (h : isLeaf g t = true) : reachesLeafWithin g (d + 1) t = true := by
  simp only [reachesLeafWithin, h, Bool.true_or]

theorem depBase_mem (g : DepGraph) (r : Nat × String) (h : r ∈ depBase g) :
    r.1 = 1 ∧ isLeaf g r.2 = true := by
  rcases List.mem_filterMap.mp h with ⟨t, _, he⟩
  cases hl : isLeaf g t with
  | false =>
    rw [hl] at he
    simp at he
  | true =>
    rw [hl] at he
    simp only [if_true] at he
    injection he with he'
    rw [← he']
    exact ⟨rfl, hl⟩

theorem depStep_mem (g : DepGraph) (work : List (Nat × String))
    (r : Nat × String) (h : r ∈ depStep g work) :
    ∃ q ∈ work, ∃ e ∈ g.edges, e.2 = q.2 ∧ r = (q.1 + 1, e.1) := by
  rcases List.mem_flatMap.mp h with ⟨q, hq, hr⟩
  rcases List.mem_filterMap.mp hr with ⟨e, he, heq⟩
  cases hc : (e.2 == q.2 && g.tables.contains e.1) with
  | false =>
    rw [hc] at heq
    simp at heq
  | true =>
    rw [hc] at heq
    simp only [if_true] at heq
    injection heq with he'
    rw [Bool.and_eq_true] at hc
    exact ⟨q, hq, e, he, eq_of_beq hc.1, he'.symm⟩

theorem depRowsAux_bound (g : DepGraph) (fuel : Nat) :
    ∀ (work acc : List (Nat × String)) (B : Nat),
    (∀ r ∈ work, r.1 ≤ B ∧ reachesLeafWithin g r.1 r.2 = true) →
    (∀ r ∈ acc, r.1 ≤ B ∧ reachesLeafWithin g r.1 r.2 = true) →
    ∀ r ∈ depRowsAux g fuel work acc,
      r.1 ≤ B + fuel ∧ reachesLeafWithin g r.1 r.2 = true := by
  induction fuel with
  | zero =>
    intro work acc B _ ha r hr
    simp only [depRowsAux] at hr
    rcases ha r hr with ⟨h1, h2⟩
    exact ⟨by omega, h2⟩
  | succ n ih =>
    intro work acc B hw ha r hr
    simp only [depRowsAux] at hr
    by_cases hemp : work.isEmpty
    · rw [if_pos hemp] at hr
      rcases ha r hr with ⟨h1, h2⟩
      exact ⟨by omega, h2⟩
    · rw [if_neg hemp] at hr
      have hstep : ∀ r' ∈ depStep g work,
          r'.1 ≤ B + 1 ∧ reachesLeafWithin g r'.1 r'.2 = true := by
        intro r' hr'
        rcases depStep_mem g work r' hr' with ⟨q, hq, e, he, he2, hre⟩
        rcases hw q hq with ⟨hq1, hq2⟩
        subst hre
        refine ⟨by simpa using Nat.succ_le_succ hq1, ?_⟩
        refine reachesLeafWithin_step g q.1 q.2 e.1 hq2 ?_
        rw [← he2]
        simpa using he
      have hacc : ∀ r' ∈ acc ++ depStep g work,
          r'.1 ≤ B + 1 ∧ reachesLeafWithin g r'.1 r'.2 = true := by
        intro r' hr'
        rcases List.mem_append.mp hr' with h' | h'
        · rcases ha r' h' with ⟨h1, h2⟩
          exact ⟨by omega, h2⟩
        · exact hstep r' h'
      rcases ih (depStep g work) (acc ++ depStep g work) (B + 1) hstep hacc
        r hr with ⟨h1, h2⟩
      exact ⟨by omega, h2⟩

theorem depRows_reaches (g : DepGraph) (r : Nat × String)
    (h : r ∈ depRows g) :
    reachesLeafWithin g (g.tables.length + 1) r.2 = true := by
  have hbase : ∀ r' ∈ depBase g,
      r'.1 ≤ 1 ∧ reachesLeafWithin g r'.1 r'.2 = true := by
    intro r' hr'
    rcases depBase_mem g r' hr' with ⟨h1, h2⟩
    refine ⟨by omega, ?_⟩
    rw [h1]
    exact reachesLeafWithin_leaf g 0 r'.2 h2
  rcases depRowsAux_bound g g.tables.length (depBase g) (depBase g) 1
    hbase hbase r h with ⟨h1, h2⟩
  exact reachesLeafWithin_mono g r.1 (g.tables.length + 1) r.2 (by omega) h2

/-- C8: a table `t` lying on a foreign-key cycle, with no foreign-key path
from `t` down to a table with zero outbound foreign keys, is assigned no
depth by the recursive traversal and does not appear anywhere in the
orderer's output; the orderer is total, so no error is raised for it. -/
theorem C8_cycle_tables_silently_omitted (g : DepGraph) (t : String)
    (cyc : List String) (_hne : cyc ≠ []) (_hcyc : pathOk g t cyc = true)
    (_hlast : cyc.getLast? = some t)
    (hnoleaf : reachesLeafWithin g (g.tables.length + 1) t = false) :
    minDepthOf (depRows g) t = none ∧ t ∉ orderTables g := by
  have hnorow : ∀ r ∈ depRows g, (r.2 == t) = false := by
    intro r hr
    cases hb : (r.2 == t) with
    | false => rfl
    | true =>
      have hre := depRows_reaches g r hr
      rw [eq_of_beq hb] at hre
      rw [hre] at hnoleaf
      cases hnoleaf
  constructor
  · have hnil : (depRows g).filterMap
        (fun r => if r.2 == t then some r.1 else none) = [] := by
      rw [List.filterMap_eq_nil_iff]
      intro r hr
      simp [hnorow r hr]
    unfold minDepthOf
    rw [hnil]
    rfl
  · intro hmem
    have h1 : t ∈ distinctNames [] ((depRows g).map Prod.snd) :=
      mem_sortBy _ t _ hmem
    have h2 : t ∈ (depRows g).map Prod.snd := mem_distinctNames _ [] t h1
    rcases List.mem_map.mp h2 with ⟨r, hr, hrt⟩
    have := hnorow r hr
    rw [hrt] at this
    simp at this

/-- Witness for C8: in `gCycle`, table `b` lies on the cycle `b → c → b`,
reaches no dependency-free table, and is omitted from the orderer's
output. -/
theorem C8_witness :
    (["c", "b"] ≠ ([] : List String)) ∧
    pathOk gCycle "b" ["c", "b"] = true ∧
    (["c", "b"] : List String).getLast? = some "b" ∧
    reachesLeafWithin gCycle (gCycle.tables.length + 1) "b" = false ∧
    minDepthOf (depRows gCycle) "b" = none ∧
    "b" ∉ orderTables gCycle := by
  refine ⟨by decide, by decide, by decide, by decide, ?_, ?_⟩
  · exact (C8_cycle_tables_silently_omitted gCycle "b" ["c", "b"] (by decide)
      (by decide) (by decide) (by decide)).1
  · exact (C8_cycle_tables_silently_omitted gCycle "b" ["c", "b"] (by decide)
      (by decide) (by decide) (by decide)).2

/-- C5: the primary-key pass assigns no key for zero constraint rows, a
single-column key carrying the row's column for exactly one row, and for two
or more rows a composite key whose columns are all rows' columns in row
order and whose name comes from the first row. -/
theorem buildColumns_unrecognized (rows : List DbColumnRow) :
    ∀ acc, (∃ row ∈ rows, dbPrimKind row.data_type = none) →
    ∃ s, buildColumns acc rows = .error (.unrecognizedType s) ∧
      dbPrimKind s = none := by
  induction rows with
  | nil =>
    intro acc h
    simp at h
  | cons row rest ih =>
    intro acc h
    cases hk : dbPrimKind row.data_type with
    | none =>
      refine ⟨row.data_type, ?_, hk⟩
      simp [buildColumns, _db_type_to_py_type, hk]
    | some k =>
      have hrest : ∃ r ∈ rest, dbPrimKind r.data_type = none := by
        rcases h with ⟨r, hr, hn⟩
        rcases List.mem_cons.mp hr with rfl | hr'
        · rw [hk] at hn
          cases hn
        · exact ⟨r, hr', hn⟩
      cases hnb : (row.is_nullable && !row.column_default.isSome) with
      | false =>
        simp only [buildColumns, _db_type_to_py_type, hk, hnb,
          Bool.false_eq_true, if_false]
        exact ih _ hrest
      | true =>
        simp only [buildColumns, _db_type_to_py_type, hk, hnb, if_true]
        exact ih _ hrest

/-- C7: a native type name outside the fixed lookup table makes the mapper
fail with the unrecognized-type error, and when any column of a table
carries such a type, `_get_table_schema` propagates an unrecognized-type
failure and returns no table at all. -/
theorem C7_unrecognized_type_fatal (snap : DbSnapshot) (t db_type : String)
    (hu : dbPrimKind db_type = none)
    (hrow : ∃ row ∈ snap.tableColumns t, row.data_type = db_type) :
    (∀ n d, _db_type_to_py_type db_type n d =
      .error (.unrecognizedType db_type)) ∧
    (∃ s, _get_table_schema snap t = .error (.unrecognizedType s) ∧
      dbPrimKind s = none) := by
  constructor
  · intro n d
    simp [_db_type_to_py_type, hu]
  · have h : ∃ row ∈ snap.tableColumns t, dbPrimKind row.data_type = none := by
      rcases hrow with ⟨r, hr, he⟩
      exact ⟨r, hr, he ▸ hu⟩
    rcases buildColumns_unrecognized _ [] h with ⟨s, hs, hn⟩
    refine ⟨s, ?_, hn⟩
    simp [_get_table_schema, hs]

/-- Witness for C7: in the snapshot `snapUuid`, the column `payload` has the
unrecognized type `uuid`, and loading table `t` fails. -/
theorem C7_witness :
    dbPrimKind "uuid" = none ∧
    (∃ row ∈ snapUuid.tableColumns "t", row.data_type = "uuid") ∧
    (∃ s, _get_table_schema snapUuid "t" = .error (.unrecognizedType s) ∧
      dbPrimKind s = none) :=
  ⟨by decide, by decide,
    (C7_unrecognized_type_fatal snapUuid "t" "uuid" (by decide) (by decide)).2⟩

theorem dictGet_setColumnRef_self (m : List (String × ColumnSchema))
    (k : String) (fk : ForeignKey) :
    dictGet (setColumnRef m k fk) k =
      (dictGet m k).map (fun c => { c with references := some fk }) := by
  induction m with
  | nil => rfl
  | cons p rest ih =>
    cases hp : (p.1 == k) with
    | true => simp [setColumnRef, dictGet, hp]
    | false => simpa [setColumnRef, dictGet, hp] using ih

theorem dictGet_setColumnRef_other (m : List (String × ColumnSchema))
    (k k' : String) (fk : ForeignKey) (h : k' ≠ k) :
    dictGet (setColumnRef m k fk) k' = dictGet m k' := by
  induction m with
  | nil => rfl
  | cons p rest ih =>
    cases hp : (p.1 == k) with
    | true =>
      have hpk : p.1 = k := by simpa using hp
      have hp' : (p.1 == k') = false := by
        rw [hpk]
        exact beq_eq_false_iff_ne.mpr (fun hh => h hh.symm)
      simpa [setColumnRef, dictGet, hp, hp'] using ih
    | false =>
      cases hq : (p.1 == k') with
      | true => simp [setColumnRef, dictGet, hp, hq]
      | false => simpa [setColumnRef, dictGet, hp, hq] using ih

theorem dictGet_setColumnRef_isSome (m : List (String × ColumnSchema))
    (k : String) (fk : ForeignKey) (k' : String) :
    (dictGet (setColumnRef m k fk) k').isSome = (dictGet m k').isSome := by
  by_cases h : k' = k
  · subst h
    rw [dictGet_setColumnRef_self]
    cases dictGet m k' <;> rfl
  · rw [dictGet_setColumnRef_other m k k' fk h]

theorem applyRefConstraint_cross (ts : TableSchema) (c : _ReferenceConstraint)
    (h : c.foreign_key_schema ≠ c.primary_key_schema) :
    applyRefConstraint ts c =
      .error (.crossSchemaReference c.foreign_key_schema
        c.primary_key_schema) := by
  simp [applyRefConstraint, h]

theorem applyRefConstraint_dup (ts : TableSchema) (c : _ReferenceConstraint)
    (col : ColumnSchema) (hs : c.foreign_key_schema = c.primary_key_schema)
    (hcol : dictGet ts.columns c.foreign_key_column = some col)
    (hr : col.references.isSome = true) :
    applyRefConstraint ts c = .error (.duplicateForeignKey col.name) := by
  simp [applyRefConstraint, hs, hcol, hr]

theorem applyRefConstraint_attach (ts : TableSchema)
    (c : _ReferenceConstraint) (col : ColumnSchema)
    (hs : c.foreign_key_schema = c.primary_key_schema)
    (hcol : dictGet ts.columns c.foreign_key_column = some col)
    (hr : col.references = none) :
    applyRefConstraint ts c =
      .ok (TableSchema.mk ts.name ts.description
        (setColumnRef ts.columns c.foreign_key_column
          (ForeignKey.mk c.foreign_key_name
            (Reference.mk c.primary_key_table c.primary_key_column)))
        ts.primary_key) := by
  simp [applyRefConstraint, hs, hcol, hr]

theorem applyRefConstraint_ok_schema (ts : TableSchema)
    (c : _ReferenceConstraint) (ts' : TableSchema)
    (h : applyRefConstraint ts c = .ok ts') :
    c.foreign_key_schema = c.primary_key_schema := by
  by_cases hs : c.foreign_key_schema = c.primary_key_schema
  · exact hs
  · rw [applyRefConstraint_cross ts c hs] at h
    cases h

theorem set_fk_cons_ok (ts : TableSchema) (c : _ReferenceConstraint)
    (rest : List _ReferenceConstraint) (ts' : TableSchema)
    (h : applyRefConstraint ts c = .ok ts') :
    _set_foreign_keys ts (c :: rest) = _set_foreign_keys ts' rest := by
  simp [_set_foreign_keys, h]

theorem set_fk_cons_err (ts : TableSchema) (c : _ReferenceConstraint)
    (rest : List _ReferenceConstraint) (e : CodeGenError)
    (h : applyRefConstraint ts c = .error e) :
    _set_foreign_keys ts (c :: rest) = .error e := by
  simp [_set_foreign_keys, h]

theorem set_fk_ok_schemas_match (cs : List _ReferenceConstraint) :
    ∀ ts ts2, _set_foreign_keys ts cs = .ok ts2 →
      ∀ c ∈ cs, c.foreign_key_schema = c.primary_key_schema := by
  induction cs with
  | nil =>
    intro ts ts2 _ c hc
    simp at hc
  | cons c0 rest ih =>
    intro ts ts2 h c hc
    cases happ : applyRefConstraint ts c0 with
    | error e =>
      rw [set_fk_cons_err _ _ _ _ happ] at h
      cases h
    | ok ts' =>
      rw [set_fk_cons_ok _ _ _ _ happ] at h
      rcases List.mem_cons.mp hc with rfl | hc'
      · exact applyRefConstraint_ok_schema _ _ _ happ
      · exact ih ts' ts2 h c hc'

theorem set_fk_duplicate_error (cs : List _ReferenceConstraint) :
    ∀ ts : TableSchema,
    (∀ c ∈ cs, c.foreign_key_schema = c.primary_key_schema) →
    (∀ c ∈ cs, (dictGet ts.columns c.foreign_key_column).isSome) →
    ((¬ (cs.map _ReferenceConstraint.foreign_key_column).Nodup) ∨
      ∃ c ∈ cs, ∃ col, dictGet ts.columns c.foreign_key_column = some col ∧
        col.references.isSome) →
    ∃ colName, _set_foreign_keys ts cs =
      .error (.duplicateForeignKey colName) := by
  induction cs with
  | nil =>
    intro ts _ _ hd
    rcases hd with hd | ⟨c, hc, _⟩
    · exact absurd List.nodup_nil hd
    · simp at hc
  | cons c rest ih =>
    intro ts hs hcols hd
    have hsc := hs c (List.mem_cons_self c rest)
    have hcol := hcols c (List.mem_cons_self c rest)
    obtain ⟨col, hcolEq⟩ : ∃ col,
        dictGet ts.columns c.foreign_key_column = some col := by
      cases hq : dictGet ts.columns c.foreign_key_column with
      | none => rw [hq] at hcol; cases hcol
      | some col => exact ⟨col, rfl⟩
    cases hr : col.references with
    | some fk0 =>
      refine ⟨col.name, ?_⟩
      rw [set_fk_cons_err _ _ _ _
        (applyRefConstraint_dup _ _ _ hsc hcolEq (by simp [hr]))]
    | none =>
      rw [set_fk_cons_ok _ _ _ _ (applyRefConstraint_attach ts c col hsc hcolEq hr)]
      apply ih
      · intro c' hc'
        exact hs c' (List.mem_cons_of_mem _ hc')
      · intro c' hc'
        dsimp only
        rw [dictGet_setColumnRef_isSome]
        exact hcols c' (List.mem_cons_of_mem _ hc')
      · rcases hd with hnd | ⟨c', hc', col', hcol', hr'⟩
        · by_cases hmem : c.foreign_key_column ∈
              rest.map _ReferenceConstraint.foreign_key_column
          · rcases List.mem_map.mp hmem with ⟨c', hc', heq⟩
            right
            refine ⟨c', hc',
              ⟨{ col with references := some (ForeignKey.mk c.foreign_key_name
                (Reference.mk c.primary_key_table c.primary_key_column)) },
                ?_, by simp⟩⟩
            dsimp only
            rw [heq, dictGet_setColumnRef_self, hcolEq]
            rfl
          · left
            intro hnd'
            exact hnd (List.nodup_cons.mpr ⟨hmem, hnd'⟩)
        · rcases List.mem_cons.mp hc' with h1 | h2
          · subst h1
            rw [hcolEq] at hcol'
            injection hcol' with hh
            subst hh
            rw [hr] at hr'
            cases hr'
          · right
            refine ⟨c', h2, ?_⟩
            by_cases hfk : c'.foreign_key_column = c.foreign_key_column
            · refine ⟨{ col with references := some (ForeignKey.mk
                c.foreign_key_name (Reference.mk c.primary_key_table
                  c.primary_key_column)) }, ?_, by simp⟩
              dsimp only
              rw [hfk, dictGet_setColumnRef_self, hcolEq]
              rfl
            · refine ⟨col', ?_, hr'⟩
              dsimp only
              rw [dictGet_setColumnRef_other _ _ _ _ hfk]
              exact hcol'

/-- C6: when the foreign-key constraint rows for a table contain two rows
targeting the same foreign-key column (all rows staying inside one schema
and naming existing columns), the foreign-key pass fails with the
duplicate-foreign-key error and produces no table. -/
theorem C6_duplicate_foreign_key_rejected (ts : TableSchema)
    (constraints : List _ReferenceConstraint)
    (hs : ∀ c ∈ constraints,
      c.foreign_key_schema = c.primary_key_schema)
    (hcols : ∀ c ∈ constraints,
      (dictGet ts.columns c.foreign_key_column).isSome)
    (hdup : ¬ (constraints.map
      _ReferenceConstraint.foreign_key_column).Nodup) :
    (∃ colName, _set_foreign_keys ts constraints =
      .error (.duplicateForeignKey colName)) ∧
    ∀ ts2, _set_foreign_keys ts constraints ≠ .ok ts2 := by
  have h := set_fk_duplicate_error constraints ts hs hcols (Or.inl hdup)
  refine ⟨h, ?_⟩
  rcases h with ⟨n, hn⟩
  intro ts2 h2
  rw [hn] at h2
  cases h2

/-- Witness for C6: two constraint rows both target column `a` of
`tsTwoCols`; the pass fails with the duplicate-foreign-key error. -/
theorem C6_witness :
    (∀ c ∈ [rcPublic "a", rcPublic "a"],
      c.foreign_key_schema = c.primary_key_schema) ∧
    (∀ c ∈ [rcPublic "a", rcPublic "a"],
      (dictGet tsTwoCols.columns c.foreign_key_column).isSome) ∧
    (¬ ([rcPublic "a", rcPublic "a"].map
      _ReferenceConstraint.foreign_key_column).Nodup) ∧
    ∃ colName, _set_foreign_keys tsTwoCols [rcPublic "a", rcPublic "a"] =
      .error (.duplicateForeignKey colName) :=
  ⟨by decide, by decide, by decide,
    (C6_duplicate_foreign_key_rejected tsTwoCols [rcPublic "a", rcPublic "a"]
      (by decide) (by decide) (by decide)).1⟩

theorem set_fk_cross_schema_error (cs : List _ReferenceConstraint) :
    ∀ ts : TableSchema,
    (∀ c ∈ cs, (dictGet ts.columns c.foreign_key_column).isSome) →
    (∀ c ∈ cs, (dictGet ts.columns c.foreign_key_column).bind
      ColumnSchema.references = none) →
    (cs.map _ReferenceConstraint.foreign_key_column).Nodup →
    (∃ c ∈ cs, c.foreign_key_schema ≠ c.primary_key_schema) →
    ∃ s1 s2, s1 ≠ s2 ∧ _set_foreign_keys ts cs =
      .error (.crossSchemaReference s1 s2) := by
  induction cs with
  | nil =>
    intro ts _ _ _ hm
    simp at hm
  | cons c rest ih =>
    intro ts hcols hfresh hnd hm
    by_cases hsc : c.foreign_key_schema = c.primary_key_schema
    · have hcol := hcols c (List.mem_cons_self c rest)
      obtain ⟨col, hcolEq⟩ : ∃ col,
          dictGet ts.columns c.foreign_key_column = some col := by
        cases hq : dictGet ts.columns c.foreign_key_column with
        | none => rw [hq] at hcol; cases hcol
        | some col => exact ⟨col, rfl⟩
      have hrefs : col.references = none := by
        have hf := hfresh c (List.mem_cons_self c rest)
        rw [hcolEq] at hf
        simpa [Option.bind] using hf
      rw [set_fk_cons_ok _ _ _ _
        (applyRefConstraint_attach ts c col hsc hcolEq hrefs)]
      have hnd' := List.nodup_cons.mp hnd
      apply ih
      · intro c' hc'
        dsimp only
        rw [dictGet_setColumnRef_isSome]
        exact hcols c' (List.mem_cons_of_mem _ hc')
      · intro c' hc'
        have hne : c'.foreign_key_column ≠ c.foreign_key_column := by
          intro he
          exact hnd'.1 (List.mem_map.mpr ⟨c', hc', he⟩)
        dsimp only
        rw [dictGet_setColumnRef_other _ _ _ _ hne]
        exact hfresh c' (List.mem_cons_of_mem _ hc')
      · exact hnd'.2
      · rcases hm with ⟨c', hc', hne⟩
        rcases List.mem_cons.mp hc' with rfl | h2
        · exact absurd hsc hne
        · exact ⟨c', h2, hne⟩
    · refine ⟨c.foreign_key_schema, c.primary_key_schema, hsc, ?_⟩
      rw [set_fk_cons_err _ _ _ _ (applyRefConstraint_cross ts c hsc)]

/-- C9: when some foreign-key constraint row crosses schemas (its
referencing column's schema differing from the referenced column's schema),
the foreign-key pass never succeeds, and — provided the other rows are
themselves well-formed (existing, distinct, unassigned columns) — it fails
precisely with the cross-schema-reference error rather than attaching the
reference. -/
theorem C9_cross_schema_rejected (ts : TableSchema)
    (constraints : List _ReferenceConstraint)
    (hmm : ∃ c ∈ constraints,
      c.foreign_key_schema ≠ c.primary_key_schema)
    (hcols : ∀ c ∈ constraints,
      (dictGet ts.columns c.foreign_key_column).isSome)
    (hfresh : ∀ c ∈ constraints,
      (dictGet ts.columns c.foreign_key_column).bind
        ColumnSchema.references = none)
    (hnd : (constraints.map
      _ReferenceConstraint.foreign_key_column).Nodup) :
    (∀ ts2, _set_foreign_keys ts constraints ≠ .ok ts2) ∧
    ∃ s1 s2, s1 ≠ s2 ∧ _set_foreign_keys ts constraints =
      .error (.crossSchemaReference s1 s2) := by
  constructor
  · intro ts2 hok
    rcases hmm with ⟨c, hc, hne⟩
    exact hne (set_fk_ok_schemas_match constraints ts ts2 hok c hc)
  · exact set_fk_cross_schema_error constraints ts hcols hfresh hnd hmm

/-- Witness for C9: the second constraint row `rcCross` references a column
in schema `other` while its own column lives in `public`; the pass fails
with the cross-schema-reference error. -/
theorem C9_witness :
    (∃ c ∈ [rcPublic "a", rcCross],
      c.foreign_key_schema ≠ c.primary_key_schema) ∧
    ∃ s1 s2, s1 ≠ s2 ∧ _set_foreign_keys tsTwoCols [rcPublic "a", rcCross] =
      .error (.crossSchemaReference s1 s2) :=
  ⟨by decide,
    (C9_cross_schema_rejected tsTwoCols [rcPublic "a", rcCross] (by decide)
      (by decide) (by decide) (by decide)).2⟩

theorem sortBy_insert_front {α : Type} (key : α → Bool) (x : α)
    (l : List α) (hx : key x = false) :
    insertSorted (fun f g => !key f || key g) x l = x :: l := by
  cases l with
  | nil => rfl
  | cons y ys => simp [insertSorted, hx]

theorem sortBy_insert_skip {α : Type} (key : α → Bool) (x : α)
    (A B : List α) (hA : ∀ y ∈ A, key y = false)
    (hB : ∀ y ∈ B, key y = true) (hx : key x = true) :
    insertSorted (fun f g => !key f || key g) x (A ++ B) =
      A ++ (x :: B) := by
  induction A with
  | nil =>
    cases B with
    | nil => rfl
    | cons b bs =>
      have hb : key b = true := hB b (by simp)
      simp [insertSorted, hx, hb]
  | cons a A ih =>
    have ha : key a = false := hA a (by simp)
    have ih' := ih (fun y hy => hA y (by simp [hy]))
    simp only [List.cons_append, insertSorted, hx, ha]
    simp [ih']

theorem sortBy_bool_key_partition {α : Type} (key : α → Bool) (l : List α) :
    sortBy (fun f g => !key f || key g) l =
      l.filter (fun y => !key y) ++ l.filter key := by
  induction l with
  | nil => rfl
  | cons x xs ih =>
    simp only [sortBy, ih]
    cases hx : key x with
    | false =>
      rw [sortBy_insert_front key x _ hx]
      simp [List.filter_cons, hx]
    | true =>
      rw [sortBy_insert_skip key x _ _
        (fun y hy => by simpa using (List.mem_filter.mp hy).2)
        (fun y hy => (List.mem_filter.mp hy).2) hx]
      simp [List.filter_cons, hx]

/-- C10: the generated dataclass field sequence is the stable partition of
the stored column order: all fields without a default (in original column
order) followed by all fields with a default (in original column order),
where a field has a default exactly when its column has an explicit default
or is optional-typed (defaulting to `None`). -/
theorem C10_field_partition (table : TableSchema) :
    (table_to_dataclass table).fields =
      ((table.columns.map Prod.snd).map column_to_field).filter
        (fun f => !fieldHasDefault f) ++
      ((table.columns.map Prod.snd).map column_to_field).filter
        fieldHasDefault ∧
    ∀ c : ColumnSchema,
      fieldHasDefault (column_to_field c) =
        (c.default.isSome || is_optional_type c.data_type) := by
  constructor
  · simp only [table_to_dataclass]
    exact sortBy_bool_key_partition fieldHasDefault _
  · intro c
    cases hd : c.default with
    | some v => simp [fieldHasDefault, column_to_field, hd]
    | none =>
      cases ho : is_optional_type c.data_type with
      | false => simp [fieldHasDefault, column_to_field, hd, ho]
      | true => simp [fieldHasDefault, column_to_field, hd, ho]

theorem C5_primary_key_arity (ts : TableSchema) :
    (_set_unique_keys ts []).primary_key = none ∧
    (∀ c : _UniqueConstraint,
      (_set_unique_keys ts [c]).primary_key =
        some (PrimaryKey.mk c.key_name (.single c.key_column))) ∧
    (∀ (c₁ c₂ : _UniqueConstraint) (rest : List _UniqueConstraint),
      (_set_unique_keys ts (c₁ :: c₂ :: rest)).primary_key =
        some (PrimaryKey.mk c₁.key_name
          (.composite (c₁.key_column :: c₂.key_column ::
            rest.map _UniqueConstraint.key_column)))) := by
  refine ⟨rfl, fun c => rfl, fun c₁ c₂ rest => rfl⟩

end PyLinSql
